import Mathlib

/-!
Verification of the portfolio-optimization and risk-analytics pipeline of
`portfolio-theory.py` (repository AssetAllocation).

The script is a linear Streamlit dashboard.  Its computational core is:
  * statistical estimation: compounded mean historical returns at monthly
    frequency and a Ledoit-Wolf shrunk covariance matrix (lines 83-88);
  * a dispatch over three constrained mean-variance optimizations
    ("Max Sharpe", "Efficient Return", "Minimum Volatility") with box
    weight bounds (lines 124-146 and 345-367);
  * the Black-Litterman posterior-return blend (lines 301-329);
  * numpy/pandas risk analytics: drawdown, active risk, Sortino, beta,
    alpha, information ratio (lines 217-293, duplicated at 438-514).

Price and return series are embedded as functions `Fin n → K` over a
linear ordered field (exact arithmetic in place of IEEE floats, the usual
shallow-embedding choice); drawdown series, which the script builds with
pandas `cumprod`/`cummax`, are embedded as lists.  The quadratic-program
solver, the shrinkage estimator, the compounded-mean estimator and the
Black-Litterman formula live in the external pypfopt/sklearn libraries
(not part of this repository); they are modelled from the spec where
indicated, and the solver is abstracted as a record of functions together
with a soundness predicate stating that returned weights solve the
corresponding constrained problem.
-/

namespace AssetAllocation

variable {K : Type} [LinearOrderedField K]

/-! ## Series operations (numpy / pandas primitives used by the script) -/

/-- Mean of a series, `Series.mean()`: sum divided by length. -/
def seriesMean {T : ℕ} (x : Fin T → K) : K :=
  (∑ t, x t) / (T : K)

/-- `np.var` on a series (default `ddof = 0`): mean squared deviation. -/
def np_var {T : ℕ} (x : Fin T → K) : K :=
  seriesMean (fun t => (x t - seriesMean x) ^ 2)

/-- `np.std` on a real series (default `ddof = 0`). -/
noncomputable def np_std {T : ℕ} (x : Fin T → ℝ) : ℝ :=
  Real.sqrt (np_var x)

/-- The off-diagonal entry `np.cov(x, y)[0, 1]` (default `ddof = 1`):
sample covariance normalized by `T - 1`. -/
def np_cov {T : ℕ} (x y : Fin T → K) : K :=
  (∑ t, (x t - seriesMean x) * (y t - seriesMean y)) / ((T : K) - 1)

/-- Population covariance (normalized by `T`); not what the script
computes, but one uniform-convention reading of "covariance". -/
def covPop {T : ℕ} (x y : Fin T → K) : K :=
  (∑ t, (x t - seriesMean x) * (y t - seriesMean y)) / (T : K)

/-- Sample variance (normalized by `T - 1`); not what the script computes,
but the other uniform-convention reading of "variance". -/
def varSample {T : ℕ} (x : Fin T → K) : K :=
  (∑ t, (x t - seriesMean x) ^ 2) / ((T : K) - 1)

/-- `DataFrame.pct_change().dropna()` on a prices matrix
(rows = dates, columns = assets): simple returns between consecutive
rows. -/
def pct_changeM {n a : ℕ} (P : Fin (n + 1) → Fin a → K) : Fin n → Fin a → K :=
  fun t j => P t.succ j / P t.castSucc j - 1

/-! ## Statistical estimation (lines 83-88)

`mean_historical_return(data, frequency=12, compounding=True)` and
`CovarianceShrinkage(data, frequency=12).ledoit_wolf()` are pypfopt /
sklearn library calls; the definitions below model them from the spec
("statistical estimation (expected returns, shrinkage covariance)",
claim wording "compounded (geometric) mean historical return",
"Ledoit-Wolf shrinkage estimate"), following the standard published
formulas those libraries implement. -/

/-- Product of the gross returns `1 + r` of one asset column. -/
def grossProd {n a : ℕ} (R : Fin n → Fin a → K) (j : Fin a) : K :=
  ∏ t, (1 + R t j)

/-- Modelled from the spec: `pypfopt.expected_returns.mean_historical_return`
with `compounding=True`, i.e. `(1 + returns).prod() ** (frequency / T) - 1`
applied to the `pct_change` returns of the prices. -/
noncomputable def mean_historical_return {n a : ℕ}
    (P : Fin (n + 1) → Fin a → ℚ) (freq : ℕ) : Fin a → ℝ :=
  fun j => ((grossProd (pct_changeM P) j : ℚ) : ℝ) ^ ((freq : ℝ) / (n : ℝ)) - 1

/-- The script's `expected_returns` (line 83): compounded mean historical
return at `frequency = 12`. -/
noncomputable def expected_returnsOf {n a : ℕ}
    (P : Fin (n + 1) → Fin a → ℚ) : Fin a → ℝ :=
  mean_historical_return P 12

/-- Per-column mean of a returns matrix. -/
def colMean {T a : ℕ} (X : Fin T → Fin a → K) (j : Fin a) : K :=
  (∑ t, X t j) / (T : K)

/-- Column-centered returns matrix. -/
def centeredM {T a : ℕ} (X : Fin T → Fin a → K) : Fin T → Fin a → K :=
  fun t j => X t j - colMean X j

/-- Biased (divide by `T`) sample covariance matrix of the centered data,
as used by sklearn's Ledoit-Wolf estimator. -/
def empCov {T a : ℕ} (X : Fin T → Fin a → K) : Matrix (Fin a) (Fin a) K :=
  Matrix.of fun i j => (∑ t, centeredM X t i * centeredM X t j) / (T : K)

/-- Average variance `trace(S) / a`, the scale of the shrinkage target. -/
def lwMu {T a : ℕ} (X : Fin T → Fin a → K) : K :=
  (∑ i, empCov X i i) / (a : K)

/-- Squared Frobenius norm of a matrix. -/
def frobSq {a : ℕ} (A : Matrix (Fin a) (Fin a) K) : K :=
  ∑ i, ∑ j, A i j ^ 2

/-- Ledoit-Wolf dispersion `d² = ‖S - μ I‖² / a`. -/
def lwDelta2 {T a : ℕ} (X : Fin T → Fin a → K) : K :=
  frobSq (empCov X - lwMu X • (1 : Matrix (Fin a) (Fin a) K)) / (a : K)

/-- Outer product of a vector with itself. -/
def outerSelf {a : ℕ} (x : Fin a → K) : Matrix (Fin a) (Fin a) K :=
  Matrix.of fun i j => x i * x j

/-- Ledoit-Wolf error term `b̄² = (1/T²) ∑ₜ ‖xₜ xₜᵀ - S‖² / a`. -/
def lwBeta2bar {T a : ℕ} (X : Fin T → Fin a → K) : K :=
  (∑ t, frobSq (outerSelf (fun j => centeredM X t j) - empCov X) / (a : K)) / ((T : K) ^ 2)

/-- Ledoit-Wolf shrinkage intensity `min(b̄², d²) / d²`. -/
def lwShrinkage {T a : ℕ} (X : Fin T → Fin a → K) : K :=
  min (lwBeta2bar X) (lwDelta2 X) / lwDelta2 X

/-- Modelled from the spec: the Ledoit-Wolf (2004) well-conditioned
shrinkage covariance estimator used by
`CovarianceShrinkage(...).ledoit_wolf()` via sklearn:
`Σ* = s · μ I + (1 - s) · S` with the shrinkage intensity `s` above. -/
def ledoit_wolf {T a : ℕ} (X : Fin T → Fin a → K) : Matrix (Fin a) (Fin a) K :=
  lwShrinkage X • (lwMu X • (1 : Matrix (Fin a) (Fin a) K)) +
    (1 - lwShrinkage X) • empCov X

/-- The script's `cov_matrix` (line 84): Ledoit-Wolf shrinkage of the
monthly returns, annualized by the `frequency = 12` factor pypfopt
applies. -/
def cov_matrixOf {n a : ℕ} (P : Fin (n + 1) → Fin a → ℚ) :
    Matrix (Fin a) (Fin a) ℚ :=
  (12 : ℚ) • ledoit_wolf (pct_changeM P)

/-- The script's `asset_std_devs` (line 86): `np.diag(cov_matrix) ** 0.5`. -/
noncomputable def asset_std_devsOf {n a : ℕ}
    (P : Fin (n + 1) → Fin a → ℚ) : Fin a → ℝ :=
  fun j => ((cov_matrixOf P j j : ℚ) : ℝ) ^ ((1 : ℝ) / 2)

/-! ## Black-Litterman return blending (lines 301-329)

`black_litterman.BlackLittermanModel(cov_matrix, absolute_views=viewdict,
pi=expected_returns)` followed by `bl._bl_returns()` is a pypfopt call;
`blCore` below models its posterior formula from the spec
("A Bayesian method blending ... prior returns with subjective investor
views"), following the published Black-Litterman master formula the
library implements with its defaults: `tau = 0.05`, picking matrix `P`
with one row per absolute view, view vector `Q`, and uncertainty
`Ω = diag(τ P Σ Pᵀ)`; the posterior is
`π + τΣPᵀ (P τΣ Pᵀ + Ω)⁻¹ (Q - Pπ)`. -/

/-- Explicit (computable, adjugate-based) inverse of a square matrix. -/
def matInv {k : ℕ} (A : Matrix (Fin k) (Fin k) K) : Matrix (Fin k) (Fin k) K :=
  A.det⁻¹ • A.adjugate

/-- The pypfopt default `tau = 0.05`. -/
def blTau : K := 1 / 20

/-- Picking matrix of a list of absolute views `(asset, value)`: one row
per view, with a `1` in the viewed asset's column. -/
def blP {a : ℕ} (views : List (Fin a × K)) :
    Matrix (Fin views.length) (Fin a) K :=
  Matrix.of fun i j => if (views.get i).1 = j then 1 else 0

/-- View-value vector of a list of absolute views. -/
def blQ {a : ℕ} (views : List (Fin a × K)) : Fin views.length → K :=
  fun i => (views.get i).2

/-- The pypfopt default view-uncertainty matrix `Ω = diag(τ P Σ Pᵀ)`. -/
def blOmega {a k : ℕ} (C : Matrix (Fin a) (Fin a) K)
    (P : Matrix (Fin k) (Fin a) K) : Matrix (Fin k) (Fin k) K :=
  Matrix.diagonal fun i => (P * ((blTau : K) • C) * P.transpose) i i

/-- The matrix `P τΣ Pᵀ + Ω` inverted inside the posterior formula. -/
def blM {a k : ℕ} (C : Matrix (Fin a) (Fin a) K)
    (P : Matrix (Fin k) (Fin a) K) : Matrix (Fin k) (Fin k) K :=
  P * ((blTau : K) • C) * P.transpose + blOmega C P

/-- Black-Litterman posterior returns for an arbitrary picking matrix and
view vector: `π + τΣPᵀ (P τΣ Pᵀ + Ω)⁻¹ (Q - Pπ)`. -/
def blCore {a k : ℕ} (C : Matrix (Fin a) (Fin a) K)
    (P : Matrix (Fin k) (Fin a) K) (Q : Fin k → K) (π : Fin a → K) :
    Fin a → K :=
  π + (((blTau : K) • C) * P.transpose).mulVec
    ((matInv (blM C P)).mulVec (Q - P.mulVec π))

/-- The script's `rets = bl._bl_returns()` (line 329) as a function of the
covariance matrix, the checkbox view dictionary and the prior `pi`. -/
def bl_returns {a : ℕ} (C : Matrix (Fin a) (Fin a) K)
    (views : List (Fin a × K)) (π : Fin a → K) : Fin a → K :=
  blCore C (blP views) (blQ views) π

/-- Modelled from the spec: a market-implied prior return vector in the
Black-Litterman sense, `Π = δ · Σ w_mkt` for a risk aversion `δ` and
market-capitalization weights `w_mkt` (glossary: "blending market-implied
prior returns with subjective investor views"; the script never computes
one — its commented-out line 341 is the library route that would). -/
def marketImpliedPrior {a : ℕ} (C : Matrix (Fin a) (Fin a) ℝ)
    (δ : ℝ) (w : Fin a → ℝ) : Fin a → ℝ :=
  fun i => δ * C.mulVec w i

/-! ## Mean-variance optimization (lines 124-146, 345-367)

`EfficientFrontier(expected_returns, cov_matrix, weight_bounds=(lb, ub))`
and its `max_sharpe` / `efficient_return` / `min_volatility` methods call
the external convex-QP machinery of pypfopt.  The three optimization
problems are modelled from the spec ("constrained quadratic optimization
(max-Sharpe, efficient-return, min-volatility)"), and the solver is
abstracted as a record of functions with a soundness predicate; what is
proved from the source is the bounds gate and the dispatch wiring. -/

/-- Dot product of an expected-return vector with a weight vector. -/
def dotProd {a : ℕ} (x w : Fin a → ℝ) : ℝ :=
  ∑ j, x j * w j

/-- Portfolio variance `wᵀ Σ w`. -/
def portVariance {a : ℕ} (C : Matrix (Fin a) (Fin a) ℝ) (w : Fin a → ℝ) : ℝ :=
  ∑ i, ∑ j, w i * C i j * w j

/-- Annualized portfolio volatility `sqrt(wᵀ Σ w)`. -/
noncomputable def portVol {a : ℕ} (C : Matrix (Fin a) (Fin a) ℝ)
    (w : Fin a → ℝ) : ℝ :=
  Real.sqrt (portVariance C w)

/-- Sharpe ratio of a weight vector at a given risk-free rate. -/
noncomputable def sharpeOf {a : ℕ} (mu : Fin a → ℝ)
    (C : Matrix (Fin a) (Fin a) ℝ) (rfr : ℝ) (w : Fin a → ℝ) : ℝ :=
  (dotProd mu w - rfr) / portVol C w

/-- Feasibility under the user's box bounds: every asset weight lies in
`[lb, ub]` and the weights sum to one (the pypfopt default budget
constraint). -/
def feasibleW {a : ℕ} (lb ub : ℚ) (w : Fin a → ℝ) : Prop :=
  (∀ j, (lb : ℝ) ≤ w j ∧ w j ≤ (ub : ℝ)) ∧ ∑ j, w j = 1

/-- Modelled from the spec: `w` solves the max-Sharpe problem over the
feasible set. -/
def IsMaxSharpeSolution {a : ℕ} (mu : Fin a → ℝ)
    (C : Matrix (Fin a) (Fin a) ℝ) (lb ub rfr : ℚ) (w : Fin a → ℝ) : Prop :=
  feasibleW lb ub w ∧
    ∀ v, feasibleW lb ub v → sharpeOf mu C (rfr : ℝ) v ≤ sharpeOf mu C (rfr : ℝ) w

/-- Modelled from the spec: `w` solves the minimum-risk-at-target-return
(efficient-return) problem over the feasible set. -/
def IsEfficientReturnSolution {a : ℕ} (mu : Fin a → ℝ)
    (C : Matrix (Fin a) (Fin a) ℝ) (lb ub tgt : ℚ) (w : Fin a → ℝ) : Prop :=
  feasibleW lb ub w ∧ dotProd mu w = (tgt : ℝ) ∧
    ∀ v, feasibleW lb ub v → dotProd mu v = (tgt : ℝ) →
      portVariance C w ≤ portVariance C v

/-- Modelled from the spec: `w` solves the minimum-variance problem over
the feasible set. -/
def IsMinVolSolution {a : ℕ} (C : Matrix (Fin a) (Fin a) ℝ)
    (lb ub : ℚ) (w : Fin a → ℝ) : Prop :=
  feasibleW lb ub w ∧ ∀ v, feasibleW lb ub v → portVariance C w ≤ portVariance C v

/-- The sidebar dropdown options (line 107). -/
inductive OptMethod where
  | maxSharpe
  | efficientReturn
  | minVolatility
deriving DecidableEq

/-- The external QP solver, abstracted: one fallible routine per
`EfficientFrontier` method the script calls. -/
structure PortSolver (a : ℕ) where
  solveMaxSharpe : (Fin a → ℝ) → Matrix (Fin a) (Fin a) ℝ → ℚ → ℚ → ℚ →
    Option (Fin a → ℝ)
  solveEffReturn : (Fin a → ℝ) → Matrix (Fin a) (Fin a) ℝ → ℚ → ℚ → ℚ →
    Option (Fin a → ℝ)
  solveMinVol : (Fin a → ℝ) → Matrix (Fin a) (Fin a) ℝ → ℚ → ℚ →
    Option (Fin a → ℝ)

/-- Soundness of the abstract solver: weights it returns solve the
corresponding constrained problem. -/
def PortSolver.Sound {a : ℕ} (S : PortSolver a) : Prop :=
  (∀ mu C lb ub rfr w, S.solveMaxSharpe mu C lb ub rfr = some w →
      IsMaxSharpeSolution mu C lb ub rfr w) ∧
  (∀ mu C lb ub tgt w, S.solveEffReturn mu C lb ub tgt = some w →
      IsEfficientReturnSolution mu C lb ub tgt w) ∧
  (∀ mu C lb ub w, S.solveMinVol mu C lb ub = some w →
      IsMinVolSolution C lb ub w)

/-- The `optimization_method` dispatch (lines 132-142): which library
call is made, with which user parameters. -/
def selectWeights {a : ℕ} (S : PortSolver a) (m : OptMethod)
    (mu : Fin a → ℝ) (C : Matrix (Fin a) (Fin a) ℝ) (lb ub rfr tgt : ℚ) :
    Option (Fin a → ℝ) :=
  match m with
  | .maxSharpe => S.solveMaxSharpe mu C lb ub rfr
  | .efficientReturn => S.solveEffReturn mu C lb ub tgt
  | .minVolatility => S.solveMinVol mu C lb ub

/-- The constrained problem the claim associates with each dropdown
option. -/
def SolvesSelected {a : ℕ} (m : OptMethod) (mu : Fin a → ℝ)
    (C : Matrix (Fin a) (Fin a) ℝ) (lb ub rfr tgt : ℚ) (w : Fin a → ℝ) : Prop :=
  match m with
  | .maxSharpe => IsMaxSharpeSolution mu C lb ub rfr w
  | .efficientReturn => IsEfficientReturnSolution mu C lb ub tgt w
  | .minVolatility => IsMinVolSolution C lb ub w

/-- The MVO tab's bounds gate and optimization (lines 126-142): weights
are produced only when `lower_bound < upper_bound`, by the dispatched
solver call. -/
def mvoTabWeights {a : ℕ} (S : PortSolver a) (m : OptMethod)
    (mu : Fin a → ℝ) (C : Matrix (Fin a) (Fin a) ℝ) (lb ub rfr tgt : ℚ) :
    Option (Fin a → ℝ) :=
  if ub ≤ lb then none else selectWeights S m mu C lb ub rfr tgt

/-- The Black-Litterman tab's bounds gate and optimization (lines
347-363), run on the blended returns `rets`. -/
def blTabWeights {a : ℕ} (S : PortSolver a) (m : OptMethod)
    (rets : Fin a → ℝ) (C : Matrix (Fin a) (Fin a) ℝ) (lb ub rfr tgt : ℚ) :
    Option (Fin a → ℝ) :=
  if ub ≤ lb then none else selectWeights S m rets C lb ub rfr tgt

/-- Modelled from the spec: `ef.portfolio_performance(risk_free_rate=rfr)`
of pypfopt, the triple (expected return, volatility, Sharpe ratio) of the
optimized weights. -/
noncomputable def portfolio_performance {a : ℕ} (mu : Fin a → ℝ)
    (C : Matrix (Fin a) (Fin a) ℝ) (rfr : ℝ) (w : Fin a → ℝ) : ℝ × ℝ × ℝ :=
  (dotProd mu w, portVol C w, (dotProd mu w - rfr) / portVol C w)

/-- Modelled from the spec: `ef.clean_weights()` of pypfopt — weights with
magnitude below the `1e-4` cutoff are zeroed, the rest rounded to five
decimals. -/
noncomputable def cleanWeights {a : ℕ} (w : Fin a → ℝ) : Fin a → ℝ :=
  fun j => if |w j| < 1 / 10000 then 0 else ((round (w j * 100000) : ℤ) : ℝ) / 100000

/-! ## Risk analytics (lines 217-293, duplicated at lines 438-514) -/

/-- `returns[list(cleaned_weights.keys())].dot(list(cleaned_weights.values()))`
(line 225): the monthly portfolio return series, asset returns dotted with
the weights. -/
def portfolio_returns {T a : ℕ} (R : Fin T → Fin a → K) (w : Fin a → K) :
    Fin T → K :=
  fun t => ∑ j, R t j * w j

/-- Running products with accumulator, the recursion behind pandas
`cumprod`. -/
def cumProdAux (acc : K) : List K → List K
  | [] => []
  | g :: gs => acc * g :: cumProdAux (acc * g) gs

/-- `(1 + portfolio_returns).cumprod()` (line 226). -/
def cumulative_returns (r : List K) : List K :=
  cumProdAux 1 (r.map fun x => 1 + x)

/-- Running maxima with accumulator, the recursion behind pandas
`cummax`. -/
def cummaxAux (m : K) : List K → List K
  | [] => []
  | x :: xs => max m x :: cummaxAux (max m x) xs

/-- `cumulative_returns.cummax()` (line 227). -/
def cummaxList : List K → List K
  | [] => []
  | x :: xs => x :: cummaxAux x xs

/-- `(cumulative_returns - rolling_max) / rolling_max` (line 228). -/
def drawdownsOf (r : List K) : List K :=
  List.zipWith (fun c m => (c - m) / m)
    (cumulative_returns r) (cummaxList (cumulative_returns r))

/-- Pandas `.min()` of a series (the empty case is irrelevant to the
script, which always has data). -/
def np_min : List K → K
  | [] => 0
  | x :: xs => xs.foldl min x

/-- `drawdowns.min()` (line 229): the reported Maximum Drawdown. -/
def max_drawdownOf (r : List K) : K :=
  np_min (drawdownsOf r)

/-- Claim-side closed form: the cumulative product of `1 + r` up to and
including time `t`. -/
def cumProdAt (r : List K) (t : ℕ) : K :=
  ((r.take (t + 1)).map fun x => 1 + x).prod

/-- Claim-side closed form: the running maximum of the cumulative
products over times up to `t`. -/
def runMaxAt (r : List K) (t : ℕ) : K :=
  Finset.sup' (Finset.range (t + 1)) ⟨0, Finset.mem_range.2 (Nat.succ_pos t)⟩
    fun s => cumProdAt r s

/-- `portfolio_returns - benchmark_returns` (line 259), with the two
series aligned on the same dates. -/
def active_returns {T : ℕ} (pr bmk : Fin T → K) : Fin T → K :=
  fun t => pr t - bmk t

/-- `np.std(active_returns) * np.sqrt(12)` (line 260): the reported
Active Risk (Tracking Error). -/
noncomputable def active_risk {T : ℕ} (pr bmk : Fin T → ℝ) : ℝ :=
  np_std (active_returns pr bmk) * Real.sqrt 12

/-- `excess_returns = returns['Portfolio'] - rfr / 12` (lines 267-268). -/
def excessOf {T : ℕ} (pr : Fin T → K) (rfr : K) : Fin T → K :=
  fun t => pr t - rfr / 12

/-- `(downside_returns ** 2).mean()` (lines 271-272): mean of the squares
of only the strictly negative entries, over their own count. -/
def downsideMeanSq {T : ℕ} (x : Fin T → K) : K :=
  (∑ t ∈ Finset.univ.filter fun t => x t < 0, x t ^ 2) /
    ((Finset.univ.filter fun t => x t < 0).card : K)

/-- `np.sqrt((downside_returns ** 2).mean()) * np.sqrt(12)` (line 272). -/
noncomputable def downside_risk {T : ℕ} (x : Fin T → ℝ) : ℝ :=
  Real.sqrt (downsideMeanSq x) * Real.sqrt 12

/-- `(excess_returns.mean() * 12) / downside_risk` (line 273): the
reported Sortino ratio. -/
noncomputable def sortinoRatioOf {T : ℕ} (pr : Fin T → ℝ) (rfr : ℝ) : ℝ :=
  (seriesMean (excessOf pr rfr) * 12) / downside_risk (excessOf pr rfr)

/-- `np.cov(...)[0, 1] / np.var(...)` (lines 276-278): the reported beta,
a `ddof = 1` covariance over a `ddof = 0` variance. -/
def betaOf {T : ℕ} (pr bmk : Fin T → K) : K :=
  np_cov pr bmk / np_var bmk

/-- `series.mean() * 12` (lines 281-282): annualized mean return. -/
def annualizedMean {T : ℕ} (x : Fin T → K) : K :=
  seriesMean x * 12

/-- `portfolio_return - (rfr + beta * (benchmark_return - rfr))`
(line 283): the reported alpha. -/
def alphaOf {T : ℕ} (pr bmk : Fin T → K) (rfr : K) : K :=
  annualizedMean pr - (rfr + betaOf pr bmk * (annualizedMean bmk - rfr))

/-- `(portfolio_return - benchmark_return) / active_risk` (line 286): the
reported information ratio. -/
noncomputable def infoRatioOf {T : ℕ} (pr bmk : Fin T → ℝ) : ℝ :=
  (annualizedMean pr - annualizedMean bmk) / active_risk pr bmk

/-- The six figures the "Additional Metrics" analytics block reports. -/
structure BenchAnalytics where
  maxDD : ℝ
  ar : ℝ
  so : ℝ
  be : ℝ
  al : ℝ
  ir : ℝ

/-- The analytics block of the MVO tab (lines 225-286), as a function of
the cleaned weights, the asset return matrix, the aligned benchmark
return series and the risk-free rate. -/
noncomputable def mvoAnalyticsBlock {T a : ℕ} (R : Fin T → Fin a → ℝ)
    (w : Fin a → ℝ) (bmk : Fin T → ℝ) (rfr : ℝ) : BenchAnalytics :=
  ⟨max_drawdownOf (List.ofFn (portfolio_returns R w)),
   active_risk (portfolio_returns R w) bmk,
   sortinoRatioOf (portfolio_returns R w) rfr,
   betaOf (portfolio_returns R w) bmk,
   alphaOf (portfolio_returns R w) bmk rfr,
   infoRatioOf (portfolio_returns R w) bmk⟩

/-- The analytics block duplicated in the Black-Litterman tab (lines
446-507), transcribed from that copy of the code. -/
noncomputable def blAnalyticsBlock {T a : ℕ} (R : Fin T → Fin a → ℝ)
    (w : Fin a → ℝ) (bmk : Fin T → ℝ) (rfr : ℝ) : BenchAnalytics :=
  ⟨max_drawdownOf (List.ofFn (portfolio_returns R w)),
   active_risk (portfolio_returns R w) bmk,
   sortinoRatioOf (portfolio_returns R w) rfr,
   betaOf (portfolio_returns R w) bmk,
   alphaOf (portfolio_returns R w) bmk rfr,
   infoRatioOf (portfolio_returns R w) bmk⟩

/-! ## The two tabs as display-item streams (for the error-handling claim)

A tab run is modelled as the list of Streamlit display calls it reaches.
On `lower_bound >= upper_bound` the script shows `st.error` and then, at
the plotting step (lines 152-159 / 373-380), hits an exception
(`portfolio_volatility` was never assigned, or the frontier plot fails on
the invalid bounds) before any further display call, so the bare `except`
appends the two adjust-parameters messages.  A failing optimizer call
raises inside the `else` branch, again before any display call. -/

/-- One Streamlit display call of a tab. -/
inductive TabItem (a : ℕ) where
  | errorBounds
  | blRetsTable (rets : Fin a → ℝ)
  | frontierPlot
  | weightsTable (w : Fin a → ℝ)
  | allocationPie
  | perfReport (ret vol sh : ℝ)
  | drawdownReport (dd : ℝ)
  | benchReport (x1 x2 x3 x4 x5 : ℝ)
  | adjustParamsMsg
  | targetHintMsg

/-- Whether a display item reports optimized weights, portfolio
performance figures, or benchmark-relative analytics. -/
def isReportItem {a : ℕ} : TabItem a → Bool
  | .weightsTable _ => true
  | .perfReport _ _ _ => true
  | .drawdownReport _ => true
  | .benchReport _ _ _ _ _ => true
  | _ => false

/-- The display calls of the MVO tab's success path (lines 150-293). -/
noncomputable def mvoSuccessItems {T a : ℕ} (mu : Fin a → ℝ)
    (C : Matrix (Fin a) (Fin a) ℝ) (rfr : ℚ) (w : Fin a → ℝ)
    (R : Fin T → Fin a → ℝ) (bmk : Fin T → ℝ) : List (TabItem a) :=
  [.frontierPlot, .weightsTable (cleanWeights w), .allocationPie,
   .perfReport (portfolio_performance mu C (rfr : ℝ) w).1
     (portfolio_performance mu C (rfr : ℝ) w).2.1
     (portfolio_performance mu C (rfr : ℝ) w).2.2,
   .drawdownReport (mvoAnalyticsBlock R (cleanWeights w) bmk (rfr : ℝ)).maxDD,
   .benchReport (mvoAnalyticsBlock R (cleanWeights w) bmk (rfr : ℝ)).ar
     (mvoAnalyticsBlock R (cleanWeights w) bmk (rfr : ℝ)).so
     (mvoAnalyticsBlock R (cleanWeights w) bmk (rfr : ℝ)).be
     (mvoAnalyticsBlock R (cleanWeights w) bmk (rfr : ℝ)).al
     (mvoAnalyticsBlock R (cleanWeights w) bmk (rfr : ℝ)).ir]

/-- The display calls of the Black-Litterman tab's success path (lines
371-514), which runs its own copy of the analytics block. -/
noncomputable def blSuccessItems {T a : ℕ} (rets : Fin a → ℝ)
    (C : Matrix (Fin a) (Fin a) ℝ) (rfr : ℚ) (w : Fin a → ℝ)
    (R : Fin T → Fin a → ℝ) (bmk : Fin T → ℝ) : List (TabItem a) :=
  [.frontierPlot, .weightsTable (cleanWeights w), .allocationPie,
   .perfReport (portfolio_performance rets C (rfr : ℝ) w).1
     (portfolio_performance rets C (rfr : ℝ) w).2.1
     (portfolio_performance rets C (rfr : ℝ) w).2.2,
   .drawdownReport (blAnalyticsBlock R (cleanWeights w) bmk (rfr : ℝ)).maxDD,
   .benchReport (blAnalyticsBlock R (cleanWeights w) bmk (rfr : ℝ)).ar
     (blAnalyticsBlock R (cleanWeights w) bmk (rfr : ℝ)).so
     (blAnalyticsBlock R (cleanWeights w) bmk (rfr : ℝ)).be
     (blAnalyticsBlock R (cleanWeights w) bmk (rfr : ℝ)).al
     (blAnalyticsBlock R (cleanWeights w) bmk (rfr : ℝ)).ir]

/-- One run of the MVO tab (lines 124-296): the bounds error plus the
caught exception's messages, the caught optimizer failure's messages, or
the full success-path display stream. -/
noncomputable def runMVOTab {T a : ℕ} (S : PortSolver a) (m : OptMethod)
    (mu : Fin a → ℝ) (C : Matrix (Fin a) (Fin a) ℝ) (lb ub rfr tgt : ℚ)
    (R : Fin T → Fin a → ℝ) (bmk : Fin T → ℝ) : List (TabItem a) :=
  if ub ≤ lb then
    [.errorBounds, .adjustParamsMsg, .targetHintMsg]
  else
    match selectWeights S m mu C lb ub rfr tgt with
    | none => [.adjustParamsMsg, .targetHintMsg]
    | some w => mvoSuccessItems mu C rfr w R bmk

/-- One run of the Black-Litterman tab (lines 299-518): the blended
returns table is displayed before the `try` block, then the same
gate/dispatch runs on the blended returns. -/
noncomputable def runBLTab {T a : ℕ} (S : PortSolver a) (m : OptMethod)
    (C : Matrix (Fin a) (Fin a) ℝ) (views : List (Fin a × ℝ)) (π : Fin a → ℝ)
    (lb ub rfr tgt : ℚ) (R : Fin T → Fin a → ℝ) (bmk : Fin T → ℝ) :
    List (TabItem a) :=
  TabItem.blRetsTable (bl_returns C views π) ::
    (if ub ≤ lb then
      [.errorBounds, .adjustParamsMsg, .targetHintMsg]
    else
      match selectWeights S m (bl_returns C views π) C lb ub rfr tgt with
      | none => [.adjustParamsMsg, .targetHintMsg]
      | some w => blSuccessItems (bl_returns C views π) C rfr w R bmk)

/-! ## Concrete instances used by witnesses and counterexamples -/

/-- A concrete monthly price history for two assets over three dates:
asset 0 returns +10% then +30%, asset 1 returns -30% then -10%. -/
def toyPrices : Fin 3 → Fin 2 → ℚ :=
  ![![100, 100], ![110, 70], ![143, 63]]

/-- A two-point series `0, 1`, used to exhibit the beta convention
mismatch. -/
def toySeries : Fin 2 → ℚ :=
  ![0, 1]

/-- A sound solver for the one-asset universe, where the budget
constraint pins the unique feasible portfolio `w = (1)`. -/
def oneAssetSolver : PortSolver 1 where
  solveMaxSharpe := fun _ _ lb ub _ =>
    if lb ≤ 1 ∧ 1 ≤ ub then some (fun _ => 1) else none
  solveEffReturn := fun _ _ _ _ _ => none
  solveMinVol := fun _ _ lb ub =>
    if lb ≤ 1 ∧ 1 ≤ ub then some (fun _ => 1) else none

/-! ## Helper lemmas -/

/-- The adjugate-based inverse agrees with Mathlib's matrix inverse over a
field. -/
lemma matInv_eq_inv {k : ℕ} (A : Matrix (Fin k) (Fin k) K) : matInv A = A⁻¹ := by
  rw [matInv, Matrix.inv_def, Ring.inverse_eq_inv]

/-- With no views the Black-Litterman correction term is an empty sum, so
the posterior is the prior. -/
lemma blCore_zeroViews {a : ℕ} (C : Matrix (Fin a) (Fin a) K)
    (P : Matrix (Fin 0) (Fin a) K) (Q : Fin 0 → K) (π : Fin a → K) :
    blCore C P Q π = π := by
  funext i
  simp [blCore, Matrix.mulVec, Matrix.dotProduct]

/-- `bl_returns` with the empty view dictionary returns the prior `pi`. -/
lemma bl_returns_nil {a : ℕ} (C : Matrix (Fin a) (Fin a) K) (π : Fin a → K) :
    bl_returns C [] π = π :=
  blCore_zeroViews C _ _ π

/-! ## The claims -/

/-- C9: When no view checkbox is selected (the views dictionary is empty),
the Black-Litterman posterior return vector equals the prior
expected-returns vector passed as `pi`, so the Black-Litterman tab then
optimizes over exactly the same expected returns as the MVO tab. -/
theorem no_views_bl_equals_mvo {a : ℕ} (C : Matrix (Fin a) (Fin a) ℝ)
    (π : Fin a → ℝ) (S : PortSolver a) (m : OptMethod) (lb ub rfr tgt : ℚ) :
    bl_returns C [] π = π ∧
      blTabWeights S m (bl_returns C [] π) C lb ub rfr tgt =
        mvoTabWeights S m π C lb ub rfr tgt := by
  refine ⟨bl_returns_nil C π, ?_⟩
  rw [bl_returns_nil C π]
  rfl

/-- C10: The analytics pipeline duplicated in the Black-Litterman tab
computes the same function of its inputs (cleaned weights, asset returns,
benchmark data, risk-free rate) as the pipeline in the MVO tab: for every
identical input, both blocks produce identical reported metric values. -/
theorem analytics_blocks_agree {T a : ℕ} (R : Fin T → Fin a → ℝ)
    (w : Fin a → ℝ) (bmk : Fin T → ℝ) (rfr : ℝ) :
    mvoAnalyticsBlock R w bmk rfr = blAnalyticsBlock R w bmk rfr :=
  rfl

/-- C4: The reported Active Risk (Tracking Error) equals the standard
deviation of the element-wise difference between the monthly portfolio
return series (asset returns dotted with the cleaned optimized weights)
and the monthly benchmark return series, annualized by multiplying by the
square root of 12. -/
theorem active_risk_is_tracking_error {T a : ℕ} (R : Fin T → Fin a → ℝ)
    (w : Fin a → ℝ) (bmk : Fin T → ℝ) :
    active_risk (portfolio_returns R w) bmk =
      Real.sqrt ((∑ t, ((portfolio_returns R w t - bmk t) -
          (∑ s, (portfolio_returns R w s - bmk s)) / (T : ℝ)) ^ 2) / (T : ℝ)) *
        Real.sqrt 12 :=
  rfl

/-- C5: The Sharpe ratio is computed from total portfolio volatility,
while the Sortino ratio uses downside volatility only: Sortino equals the
annualized mean monthly excess return (mean times 12) divided by the
annualized downside risk, where downside risk is the root-mean-square of
only the negative monthly excess returns (excess over the monthly
risk-free rate `rfr/12`) multiplied by the square root of 12. -/
theorem sharpe_total_sortino_downside {T a : ℕ} (mu : Fin a → ℝ)
    (C : Matrix (Fin a) (Fin a) ℝ) (rfr : ℝ) (w : Fin a → ℝ) (pr : Fin T → ℝ) :
    (portfolio_performance mu C rfr w).2.2 =
        (dotProd mu w - rfr) / Real.sqrt (portVariance C w) ∧
      sortinoRatioOf pr rfr =
        ((∑ t, (pr t - rfr / 12)) / (T : ℝ) * 12) /
          (Real.sqrt ((∑ t ∈ Finset.univ.filter fun t => pr t - rfr / 12 < 0,
              (pr t - rfr / 12) ^ 2) /
            (((Finset.univ.filter fun t => pr t - rfr / 12 < 0).card : ℕ) : ℝ)) *
            Real.sqrt 12) :=
  ⟨rfl, rfl⟩

/-- In a one-asset universe the budget constraint pins every feasible
portfolio to the constant weight `1`. -/
lemma feasible_one_unique {lb ub : ℚ} (v : Fin 1 → ℝ)
    (hv : feasibleW lb ub v) : v = fun _ => 1 := by
  funext j
  have hs := hv.2
  rw [Fin.sum_univ_one] at hs
  have hj : j = 0 := Subsingleton.elim _ _
  rw [hj, hs]

/-- The one-asset solver only returns the unique feasible portfolio, and
only when it satisfies the bounds, so it is sound. -/
lemma oneAssetSolver_sound : oneAssetSolver.Sound := by
  have hfeas : ∀ lb ub : ℚ, lb ≤ 1 → (1 : ℚ) ≤ ub →
      feasibleW lb ub (fun _ : Fin 1 => (1 : ℝ)) := by
    intro lb ub h1 h2
    constructor
    · intro j
      constructor
      · show (lb : ℝ) ≤ 1
        exact_mod_cast h1
      · show (1 : ℝ) ≤ (ub : ℝ)
        exact_mod_cast h2
    · simp
  refine ⟨?_, ?_, ?_⟩
  · intro mu C lb ub rfr w hw
    simp only [oneAssetSolver] at hw
    split_ifs at hw with hcond
    · cases hw
      refine ⟨hfeas lb ub hcond.1 hcond.2, ?_⟩
      intro v hv
      rw [feasible_one_unique v hv]
  · intro mu C lb ub tgt w hw
    simp only [oneAssetSolver] at hw
    cases hw
  · intro mu C lb ub w hw
    simp only [oneAssetSolver] at hw
    split_ifs at hw with hcond
    · cases hw
      refine ⟨hfeas lb ub hcond.1 hcond.2, ?_⟩
      intro v hv
      rw [feasible_one_unique v hv]

/-- C1: For every valid bounds pair (`lower_bound < upper_bound`) and
every user-selected optimization method, the program computes portfolio
weights by solving the corresponding constrained problem over the
estimated expected returns and covariance matrix: "Max Sharpe" solves
max-Sharpe with the user's risk-free rate, "Efficient Return" solves
minimum-risk-at-target-return with the user's target, and "Minimum
Volatility" solves minimum-variance, in each case with every asset weight
constrained to `[lower_bound, upper_bound]`. -/
theorem mvo_dispatch_solves_selected {a : ℕ} (S : PortSolver a)
    (m : OptMethod) (mu : Fin a → ℝ) (C : Matrix (Fin a) (Fin a) ℝ)
    (lb ub rfr tgt : ℚ) (w : Fin a → ℝ) (hS : S.Sound) (hb : lb < ub)
    (hw : mvoTabWeights S m mu C lb ub rfr tgt = some w) :
    SolvesSelected m mu C lb ub rfr tgt w := by
  rw [mvoTabWeights, if_neg (not_le.2 hb)] at hw
  cases m with
  | maxSharpe => exact hS.1 _ _ _ _ _ _ hw
  | efficientReturn => exact hS.2.1 _ _ _ _ _ _ hw
  | minVolatility => exact hS.2.2 _ _ _ _ _ hw

/-- C1 witness: the one-asset instance with bounds `[0, 1]` and the
"Minimum Volatility" method. -/
theorem mvo_dispatch_solves_selected_witness :
    oneAssetSolver.Sound ∧ (0 : ℚ) < 1 ∧
      SolvesSelected OptMethod.minVolatility (fun _ => 0)
        (0 : Matrix (Fin 1) (Fin 1) ℝ) 0 1 (3 / 100) (2 / 25) (fun _ => 1) :=
  ⟨oneAssetSolver_sound, by norm_num,
    mvo_dispatch_solves_selected oneAssetSolver OptMethod.minVolatility
      (fun _ => 0) (0 : Matrix (Fin 1) (Fin 1) ℝ) 0 1 (3 / 100) (2 / 25)
      (fun _ => 1) oneAssetSolver_sound (by norm_num)
      (by norm_num [mvoTabWeights, selectWeights, oneAssetSolver])⟩

/-- C8: For every input where `lower_bound >= upper_bound`, or where the
selected optimization fails, each tab displays an error or the
adjust-parameters messages and reports no optimized weights, portfolio
performance figures, or benchmark-relative analytics for that run. -/
theorem failure_paths_report_nothing {T a : ℕ} (S : PortSolver a)
    (m : OptMethod) (mu : Fin a → ℝ) (C Cb : Matrix (Fin a) (Fin a) ℝ)
    (views : List (Fin a × ℝ)) (π : Fin a → ℝ) (lb ub rfr tgt : ℚ)
    (R : Fin T → Fin a → ℝ) (bmk : Fin T → ℝ)
    (hm : ub ≤ lb ∨ selectWeights S m mu C lb ub rfr tgt = none)
    (hb : ub ≤ lb ∨ selectWeights S m (bl_returns Cb views π) Cb lb ub rfr tgt = none) :
    (TabItem.adjustParamsMsg ∈ runMVOTab S m mu C lb ub rfr tgt R bmk ∧
        ∀ x ∈ runMVOTab S m mu C lb ub rfr tgt R bmk, isReportItem x = false) ∧
      (TabItem.adjustParamsMsg ∈ runBLTab S m Cb views π lb ub rfr tgt R bmk ∧
        ∀ x ∈ runBLTab S m Cb views π lb ub rfr tgt R bmk, isReportItem x = false) := by
  constructor
  · by_cases hle : ub ≤ lb
    · rw [runMVOTab, if_pos hle]
      refine ⟨by simp, ?_⟩
      intro x hx
      fin_cases hx <;> rfl
    · rcases hm with h | h
      · exact absurd h hle
      · rw [runMVOTab, if_neg hle, h]
        refine ⟨by simp, ?_⟩
        intro x hx
        fin_cases hx <;> rfl
  · by_cases hle : ub ≤ lb
    · rw [runBLTab, if_pos hle]
      refine ⟨by simp, ?_⟩
      intro x hx
      fin_cases hx <;> rfl
    · rcases hb with h | h
      · exact absurd h hle
      · rw [runBLTab, if_neg hle, h]
        refine ⟨by simp, ?_⟩
        intro x hx
        fin_cases hx <;> rfl

/-- C8 witness: bounds `lower = 1 >= upper = 0` on the one-asset
instance. -/
theorem failure_paths_report_nothing_witness :
    (TabItem.adjustParamsMsg ∈
        runMVOTab (T := 1) oneAssetSolver OptMethod.minVolatility (fun _ => 0)
          (0 : Matrix (Fin 1) (Fin 1) ℝ) 1 0 (3 / 100) (2 / 25)
          (fun _ _ => 0) (fun _ => 0) ∧
      ∀ x ∈ runMVOTab (T := 1) oneAssetSolver OptMethod.minVolatility (fun _ => 0)
          (0 : Matrix (Fin 1) (Fin 1) ℝ) 1 0 (3 / 100) (2 / 25)
          (fun _ _ => 0) (fun _ => 0), isReportItem x = false) ∧
    (TabItem.adjustParamsMsg ∈
        runBLTab (T := 1) oneAssetSolver OptMethod.minVolatility
          (0 : Matrix (Fin 1) (Fin 1) ℝ) [] (fun _ => 0) 1 0 (3 / 100) (2 / 25)
          (fun _ _ => 0) (fun _ => 0) ∧
      ∀ x ∈ runBLTab (T := 1) oneAssetSolver OptMethod.minVolatility
          (0 : Matrix (Fin 1) (Fin 1) ℝ) [] (fun _ => 0) 1 0 (3 / 100) (2 / 25)
          (fun _ _ => 0) (fun _ => 0), isReportItem x = false) :=
  failure_paths_report_nothing oneAssetSolver OptMethod.minVolatility
    (fun _ => 0) (0 : Matrix (Fin 1) (Fin 1) ℝ) (0 : Matrix (Fin 1) (Fin 1) ℝ)
    [] (fun _ => 0) 1 0 (3 / 100) (2 / 25) (fun _ _ => 0) (fun _ => 0)
    (Or.inl (by norm_num)) (Or.inl (by norm_num))

/-- The Ledoit-Wolf error term is a normalized sum of squares, hence
nonnegative. -/
lemma lwBeta2bar_nonneg {T a : ℕ} (X : Fin T → Fin a → K) :
    0 ≤ lwBeta2bar X := by
  unfold lwBeta2bar frobSq
  positivity

/-- The Ledoit-Wolf dispersion is a normalized sum of squares, hence
nonnegative. -/
lemma lwDelta2_nonneg {T a : ℕ} (X : Fin T → Fin a → K) :
    0 ≤ lwDelta2 X := by
  unfold lwDelta2 frobSq
  positivity

/-- C3: The statistical estimation step computes, from the cleaned price
data, expected returns as the compounded (geometric) mean historical
return at monthly frequency (12 periods per year), and the covariance
matrix as the Ledoit-Wolf shrinkage estimate at the same frequency; the
per-asset standard deviations shown are the square roots of the diagonal
of that shrunk covariance matrix.  (The last conjunct checks that the
shrinkage intensity indeed interpolates, i.e. lies in `[0, 1]`.) -/
theorem estimation_step_formulas {n a : ℕ} (P : Fin (n + 1) → Fin a → ℚ)
    (h : ∀ j, 0 ≤ grossProd (pct_changeM P) j) :
    (∀ j, expected_returnsOf P j =
        (((grossProd (pct_changeM P) j : ℚ) : ℝ) ^ ((1 : ℝ) / (n : ℝ))) ^ (12 : ℕ) - 1) ∧
      (∀ j, asset_std_devsOf P j = Real.sqrt ((cov_matrixOf P j j : ℚ) : ℝ)) ∧
      cov_matrixOf P = (12 : ℚ) • ledoit_wolf (pct_changeM P) ∧
      0 ≤ lwShrinkage (pct_changeM P) ∧ lwShrinkage (pct_changeM P) ≤ 1 := by
  refine ⟨?_, ?_, rfl, ?_, ?_⟩
  · intro j
    have hg : (0 : ℝ) ≤ ((grossProd (pct_changeM P) j : ℚ) : ℝ) := by
      exact_mod_cast h j
    simp only [expected_returnsOf, mean_historical_return]
    congr 1
    rw [← Real.rpow_natCast
        ((((grossProd (pct_changeM P) j : ℚ) : ℝ)) ^ ((1 : ℝ) / (n : ℝ))) 12,
      ← Real.rpow_mul hg]
    congr 1
    push_cast
    ring
  · intro j
    exact (Real.sqrt_eq_rpow _).symm
  · exact div_nonneg (le_min (lwBeta2bar_nonneg _) (lwDelta2_nonneg _)) (lwDelta2_nonneg _)
  · by_cases hd : lwDelta2 (pct_changeM P) = 0
    · rw [lwShrinkage, hd, div_zero]
      norm_num
    · have hdpos : 0 < lwDelta2 (pct_changeM P) :=
        lt_of_le_of_ne (lwDelta2_nonneg _) (Ne.symm hd)
      exact (div_le_one hdpos).2 (min_le_right _ _)

/-- C3 witness: the concrete price history, whose gross return products
are nonnegative. -/
theorem estimation_step_formulas_witness :
    (∀ j, 0 ≤ grossProd (pct_changeM toyPrices) j) ∧
      ((∀ j, expected_returnsOf toyPrices j =
          (((grossProd (pct_changeM toyPrices) j : ℚ) : ℝ) ^ ((1 : ℝ) / ((2 : ℕ) : ℝ))) ^ (12 : ℕ) - 1) ∧
        (∀ j, asset_std_devsOf toyPrices j = Real.sqrt ((cov_matrixOf toyPrices j j : ℚ) : ℝ)) ∧
        cov_matrixOf toyPrices = (12 : ℚ) • ledoit_wolf (pct_changeM toyPrices) ∧
        0 ≤ lwShrinkage (pct_changeM toyPrices) ∧ lwShrinkage (pct_changeM toyPrices) ≤ 1) :=
  ⟨by intro j; fin_cases j <;>
      norm_num [grossProd, pct_changeM, toyPrices, Fin.prod_univ_two],
    estimation_step_formulas toyPrices (by intro j; fin_cases j <;>
      norm_num [grossProd, pct_changeM, toyPrices, Fin.prod_univ_two])⟩

lemma length_cumProdAux (acc : K) (l : List K) :
    (cumProdAux acc l).length = l.length := by
  induction l generalizing acc with
  | nil => rfl
  | cons g gs ih => simp [cumProdAux, ih]

lemma length_cumulative (r : List K) :
    (cumulative_returns r).length = r.length := by
  rw [cumulative_returns, length_cumProdAux, List.length_map]

lemma length_cummaxAux (m : K) (l : List K) :
    (cummaxAux m l).length = l.length := by
  induction l generalizing m with
  | nil => rfl
  | cons x xs ih => simp [cummaxAux, ih]

lemma length_cummaxList (l : List K) : (cummaxList l).length = l.length := by
  cases l with
  | nil => rfl
  | cons x xs => simp [cummaxList, length_cummaxAux]

/-- Entries of the running product are the prefix products. -/
lemma getD_cumProdAux (l : List K) :
    ∀ (acc : K) (i : ℕ), i < l.length →
      (cumProdAux acc l).getD i 0 = acc * (l.take (i + 1)).prod := by
  induction l with
  | nil =>
    intro acc i h
    simp at h
  | cons g gs ih =>
    intro acc i h
    cases i with
    | zero => simp [cumProdAux]
    | succ i =>
      have hi : i < gs.length := by simpa using h
      simp only [cumProdAux, List.getD_cons_succ, List.take_succ_cons,
        List.prod_cons]
      rw [ih (acc * g) i hi, mul_assoc]

/-- Entries of pandas `cumprod` of `1 + r` are the claim-side cumulative
products. -/
lemma getD_cumulative (r : List K) (i : ℕ) (h : i < r.length) :
    (cumulative_returns r).getD i 0 = cumProdAt r i := by
  rw [cumulative_returns, getD_cumProdAux _ _ _ (by simpa using h), one_mul,
    cumProdAt, List.map_take]

/-- Splitting a `sup'` over an initial segment at its first index. -/
lemma sup'_range_shift (f : ℕ → K) :
    ∀ n : ℕ,
      Finset.sup' (Finset.range (n + 2)) ⟨0, Finset.mem_range.2 (Nat.succ_pos _)⟩ f =
        max (f 0)
          (Finset.sup' (Finset.range (n + 1)) ⟨0, Finset.mem_range.2 (Nat.succ_pos _)⟩
            fun s => f (s + 1)) := by
  intro n
  apply le_antisymm
  · apply Finset.sup'_le
    intro i hi
    cases i with
    | zero => exact le_max_left _ _
    | succ s =>
      have hs : s ∈ Finset.range (n + 1) :=
        Finset.mem_range.2 (by simpa using Finset.mem_range.1 hi)
      exact le_trans (Finset.le_sup' (fun s => f (s + 1)) hs) (le_max_right _ _)
  · apply max_le
    · exact Finset.le_sup' f (Finset.mem_range.2 (Nat.succ_pos _))
    · apply Finset.sup'_le
      intro s hs
      exact Finset.le_sup' f
        (Finset.mem_range.2 (Nat.succ_lt_succ (Finset.mem_range.1 hs)))

/-- Entries of the running maximum with accumulator. -/
lemma getD_cummaxAux (l : List K) :
    ∀ (m : K) (i : ℕ), i < l.length →
      (cummaxAux m l).getD i 0 =
        max m
          (Finset.sup' (Finset.range (i + 1)) ⟨0, Finset.mem_range.2 (Nat.succ_pos _)⟩
            fun s => l.getD s 0) := by
  induction l with
  | nil =>
    intro m i h
    simp at h
  | cons x xs ih =>
    intro m i h
    cases i with
    | zero =>
      simp [cummaxAux, Finset.range_one]
    | succ i =>
      have hi : i < xs.length := by simpa using h
      simp only [cummaxAux, List.getD_cons_succ]
      rw [ih (max m x) i hi, sup'_range_shift]
      simp only [List.getD_cons_zero, List.getD_cons_succ]
      rw [max_assoc]

/-- Entries of pandas `cummax` are the maxima over the prefix. -/
lemma getD_cummaxList (l : List K) (i : ℕ) (h : i < l.length) :
    (cummaxList l).getD i 0 =
      Finset.sup' (Finset.range (i + 1)) ⟨0, Finset.mem_range.2 (Nat.succ_pos _)⟩
        fun s => l.getD s 0 := by
  cases l with
  | nil => simp at h
  | cons x xs =>
    cases i with
    | zero => simp [cummaxList, Finset.range_one]
    | succ i =>
      have hi : i < xs.length := by simpa using h
      simp only [cummaxList, List.getD_cons_succ]
      rw [getD_cummaxAux xs x i hi, sup'_range_shift]
      simp only [List.getD_cons_zero, List.getD_cons_succ]

/-- The left fold by `min` is a lower bound of its accumulator and of
every list element. -/
lemma foldl_min_le (l : List K) :
    ∀ acc : K, l.foldl min acc ≤ acc ∧ ∀ y ∈ l, l.foldl min acc ≤ y := by
  induction l with
  | nil =>
    intro acc
    exact ⟨le_refl acc, by simp⟩
  | cons x xs ih =>
    intro acc
    have h := ih (min acc x)
    refine ⟨h.1.trans (min_le_left _ _), ?_⟩
    intro y hy
    rcases List.mem_cons.1 hy with rfl | hy
    · exact h.1.trans (min_le_right _ _)
    · exact h.2 y hy

/-- The left fold by `min` is its accumulator or one of the list
elements. -/
lemma foldl_min_mem (l : List K) :
    ∀ acc : K, l.foldl min acc = acc ∨ l.foldl min acc ∈ l := by
  induction l with
  | nil =>
    intro acc
    exact Or.inl rfl
  | cons x xs ih =>
    intro acc
    rcases ih (min acc x) with h | h
    · rcases min_choice acc x with hm | hm
      · exact Or.inl (by rw [List.foldl_cons, h, hm])
      · exact Or.inr (by rw [List.foldl_cons, h, hm]; exact List.mem_cons_self x xs)
    · exact Or.inr (List.mem_cons_of_mem x h)

/-- Pandas `.min()` of a nonempty series is the `inf'` of its entries. -/
lemma np_min_eq_inf' (l : List K) (h : l ≠ []) :
    np_min l =
      Finset.inf' (Finset.range l.length)
        ⟨0, Finset.mem_range.2 (List.length_pos.2 h)⟩ (fun i => l.getD i 0) := by
  rcases l with _ | ⟨x, xs⟩
  · exact absurd rfl h
  · apply le_antisymm
    · apply Finset.le_inf'
      intro i hi
      have hi' : i < (x :: xs).length := Finset.mem_range.1 hi
      rw [List.getD_eq_getElem _ _ hi']
      have hmem := List.getElem_mem hi'
      rcases List.mem_cons.1 hmem with heq | hmem'
      · rw [heq]
        exact (foldl_min_le xs x).1
      · exact (foldl_min_le xs x).2 _ hmem'
    · rcases foldl_min_mem xs x with hm | hm
      · have h0 : (0 : ℕ) ∈ Finset.range (x :: xs).length :=
          Finset.mem_range.2 (by simp)
        have := Finset.inf'_le (fun i => (x :: xs).getD i 0) h0
        simpa [np_min, hm] using this
      · rcases List.mem_iff_get.1 hm with ⟨n, hn⟩
        have hmem : (n : ℕ) + 1 ∈ Finset.range (x :: xs).length :=
          Finset.mem_range.2 (by simp)
        have hle := Finset.inf'_le (fun i => (x :: xs).getD i 0) hmem
        have hval : (x :: xs).getD ((n : ℕ) + 1) 0 = np_min (x :: xs) := by
          rw [List.getD_cons_succ, List.getD_eq_getElem _ _ n.isLt,
            ← List.get_eq_getElem, hn]
          rfl
        rw [hval] at hle
        exact hle

/-- C6: The reported Maximum Drawdown equals the minimum over time of
`(C_t - M_t) / M_t`, where `C_t` is the cumulative product of
`1 + portfolio monthly return` up to time `t` and `M_t` is the running
maximum of `C` over times up to `t`. -/
theorem max_drawdown_char (r : List K) (h : r ≠ []) :
    max_drawdownOf r =
      Finset.inf' (Finset.range r.length)
        ⟨0, Finset.mem_range.2 (List.length_pos.2 h)⟩
        (fun t => (cumProdAt r t - runMaxAt r t) / runMaxAt r t) := by
  have hdl : (drawdownsOf r).length = r.length := by
    simp [drawdownsOf, length_cumulative, length_cummaxList]
  have hne : drawdownsOf r ≠ [] :=
    List.length_pos.1 (by rw [hdl]; exact List.length_pos.2 h)
  rw [max_drawdownOf, np_min_eq_inf' _ hne]
  refine Finset.inf'_congr _ (by rw [hdl]) ?_
  intro i hi
  have hi' : i < r.length := by rw [← hdl]; exact Finset.mem_range.1 hi
  have hiz : i < (drawdownsOf r).length := by rw [hdl]; exact hi'
  have hic : i < (cumulative_returns r).length := by
    rw [length_cumulative]; exact hi'
  have him : i < (cummaxList (cumulative_returns r)).length := by
    rw [length_cummaxList, length_cumulative]; exact hi'
  rw [List.getD_eq_getElem _ _ hiz]
  have hz : (drawdownsOf r)[i] =
      (fun c m => (c - m) / m) ((cumulative_returns r)[i])
        ((cummaxList (cumulative_returns r))[i]) := by
    simp only [drawdownsOf]
    rw [List.getElem_zipWith]
  rw [hz, ← List.getD_eq_getElem _ 0 hic, ← List.getD_eq_getElem _ 0 him,
    getD_cumulative r i hi', getD_cummaxList _ i hic]
  have hsup :
      (Finset.sup' (Finset.range (i + 1))
          ⟨0, Finset.mem_range.2 (Nat.succ_pos _)⟩
          fun s => (cumulative_returns r).getD s 0) = runMaxAt r i := by
    rw [runMaxAt]
    refine Finset.sup'_congr _ rfl ?_
    intro s hs
    exact getD_cumulative r s
      (lt_of_le_of_lt (Nat.lt_succ_iff.1 (Finset.mem_range.1 hs)) hi')
  rw [hsup]

/-- C6 witness: a concrete two-month return series. -/
theorem max_drawdown_char_witness :
    (([1 / 10, -1 / 2] : List ℚ) ≠ []) ∧
      max_drawdownOf ([1 / 10, -1 / 2] : List ℚ) =
        Finset.inf' (Finset.range ([1 / 10, -1 / 2] : List ℚ).length)
          ⟨0, Finset.mem_range.2 (by norm_num)⟩
          (fun t => (cumProdAt [1 / 10, -1 / 2] t - runMaxAt [1 / 10, -1 / 2] t) /
            runMaxAt [1 / 10, -1 / 2] t) :=
  ⟨by simp, max_drawdown_char [1 / 10, -1 / 2] (by simp)⟩

/-- C7 counterexample: on the series `0, 1` measured against itself, the
script's beta is `2`, while "covariance divided by variance" is `1` under
either uniform normalization convention (population/population or
sample/sample) — the code divides an `np.cov` sample covariance
(`ddof = 1`) by an `np.var` population variance (`ddof = 0`). -/
theorem beta_mixed_convention_cx :
    betaOf toySeries toySeries = 2 ∧
      covPop toySeries toySeries / np_var toySeries = 1 ∧
      np_cov toySeries toySeries / varSample toySeries = 1 := by
  refine ⟨?_, ?_, ?_⟩ <;>
    norm_num [betaOf, np_cov, np_var, covPop, varSample, seriesMean,
      toySeries, Fin.sum_univ_two]

/-- C7 (amended): the reported beta equals the `np.cov` sample covariance
(normalized by `T - 1`) divided by the `np.var` population variance
(normalized by `T`), i.e. `T / (T - 1)` times the uniform-convention
ratio; the reported alpha equals the annualized portfolio mean return
minus `rfr + beta * (annualized benchmark mean return - rfr)`; and the
reported information ratio equals the difference of annualized mean
returns divided by the active risk, where annualized mean return is the
monthly mean times 12. -/
theorem beta_alpha_info_formulas {T : ℕ} (pr bmk : Fin T → ℝ) (rfr : ℝ)
    (hT : 2 ≤ T) :
    betaOf pr bmk = ((T : ℝ) / ((T : ℝ) - 1)) * (covPop pr bmk / np_var bmk) ∧
      betaOf pr bmk = np_cov pr bmk / np_var bmk ∧
      alphaOf pr bmk rfr =
        annualizedMean pr - (rfr + betaOf pr bmk * (annualizedMean bmk - rfr)) ∧
      infoRatioOf pr bmk =
        (annualizedMean pr - annualizedMean bmk) / active_risk pr bmk := by
  refine ⟨?_, rfl, rfl, rfl⟩
  have hT2 : (2 : ℝ) ≤ (T : ℝ) := by exact_mod_cast hT
  have hT0 : (T : ℝ) ≠ 0 := by linarith
  have hT1 : (T : ℝ) - 1 ≠ 0 := by linarith
  rw [betaOf, np_cov, covPop]
  have key : (T : ℝ) / ((T : ℝ) - 1) *
      ((∑ t, (pr t - seriesMean pr) * (bmk t - seriesMean bmk)) / (T : ℝ)) =
      (∑ t, (pr t - seriesMean pr) * (bmk t - seriesMean bmk)) / ((T : ℝ) - 1) := by
    field_simp
    ring
  rw [← mul_div_assoc, key]

/-- C7 witness for the amended statement: the constant-zero two-month
series. -/
theorem beta_alpha_info_formulas_witness :
    2 ≤ 2 ∧
      (betaOf (fun _ : Fin 2 => (0 : ℝ)) (fun _ => 0) =
          (((2 : ℕ) : ℝ) / (((2 : ℕ) : ℝ) - 1)) *
            (covPop (fun _ : Fin 2 => (0 : ℝ)) (fun _ => 0) /
              np_var (fun _ : Fin 2 => (0 : ℝ))) ∧
        betaOf (fun _ : Fin 2 => (0 : ℝ)) (fun _ => 0) =
          np_cov (fun _ : Fin 2 => (0 : ℝ)) (fun _ => 0) /
            np_var (fun _ : Fin 2 => (0 : ℝ)) ∧
        alphaOf (fun _ : Fin 2 => (0 : ℝ)) (fun _ => 0) 0 =
          annualizedMean (fun _ : Fin 2 => (0 : ℝ)) -
            (0 + betaOf (fun _ : Fin 2 => (0 : ℝ)) (fun _ => 0) *
              (annualizedMean (fun _ : Fin 2 => (0 : ℝ)) - 0)) ∧
        infoRatioOf (fun _ : Fin 2 => (0 : ℝ)) (fun _ => 0) =
          (annualizedMean (fun _ : Fin 2 => (0 : ℝ)) -
              annualizedMean (fun _ : Fin 2 => (0 : ℝ))) /
            active_risk (fun _ : Fin 2 => (0 : ℝ)) (fun _ => 0)) :=
  ⟨by norm_num,
    beta_alpha_info_formulas (fun _ : Fin 2 => (0 : ℝ)) (fun _ => 0) 0
      (by norm_num)⟩

/-- The Black-Litterman posterior satisfies the Bayesian
precision-weighted-average equation: applying the total precision
`(τΣ)⁻¹ + Pᵀ Ω⁻¹ P` to the posterior gives the precision-weighted sum of
the prior and the views. -/
lemma blCore_precision {a k : ℕ} (C : Matrix (Fin a) (Fin a) K)
    (P : Matrix (Fin k) (Fin a) K) (Q : Fin k → K) (π : Fin a → K)
    (hA : ((blTau : K) • C).det ≠ 0) (hO : (blOmega C P).det ≠ 0)
    (hM : (blM C P).det ≠ 0) :
    (matInv ((blTau : K) • C) + P.transpose * matInv (blOmega C P) * P).mulVec
        (blCore C P Q π) =
      (matInv ((blTau : K) • C)).mulVec π +
        (P.transpose * matInv (blOmega C P)).mulVec Q := by
  have hAu : IsUnit ((blTau : K) • C).det := isUnit_iff_ne_zero.2 hA
  have hOu : IsUnit (blOmega C P).det := isUnit_iff_ne_zero.2 hO
  have hMu : IsUnit (blM C P).det := isUnit_iff_ne_zero.2 hM
  simp only [matInv_eq_inv]
  set A := (blTau : K) • C with hAdef
  set Om := blOmega C P with hOmdef
  set M := blM C P with hMdef
  have h1 : (A⁻¹ + P.transpose * Om⁻¹ * P) * (A * P.transpose) =
      P.transpose + P.transpose * Om⁻¹ * (P * A * P.transpose) := by
    rw [Matrix.add_mul, ← Matrix.mul_assoc A⁻¹ A P.transpose,
      Matrix.nonsing_inv_mul A hAu, Matrix.one_mul]
    congr 1
    simp only [Matrix.mul_assoc]
  have h2 : P * A * P.transpose = M - Om := by
    rw [hMdef, blM, ← hAdef, ← hOmdef, add_sub_cancel_right]
  have hBAP : (A⁻¹ + P.transpose * Om⁻¹ * P) * (A * P.transpose * M⁻¹) =
      P.transpose * Om⁻¹ := by
    rw [← Matrix.mul_assoc, h1, h2, Matrix.mul_sub, Matrix.add_mul,
      Matrix.sub_mul, Matrix.mul_assoc (P.transpose * Om⁻¹) M M⁻¹,
      Matrix.mul_nonsing_inv M hMu, Matrix.mul_one,
      Matrix.mul_assoc P.transpose Om⁻¹ Om, Matrix.nonsing_inv_mul Om hOu,
      Matrix.mul_one]
    abel
  rw [blCore, ← hAdef, ← hMdef, matInv_eq_inv]
  rw [Matrix.mulVec_add, Matrix.mulVec_mulVec, Matrix.mulVec_mulVec,
    Matrix.mul_assoc (A⁻¹ + P.transpose * Om⁻¹ * P) (A * P.transpose) M⁻¹,
    hBAP, Matrix.mulVec_sub, Matrix.add_mulVec, Matrix.mulVec_mulVec]
  abel

/-- C2 (amended): The Black-Litterman step blends the prior return vector
passed as `pi` — the historical compounded mean returns, not a
market-implied vector — with the user's subjective absolute views: for
every set of views entered via the checkboxes, the displayed
Black-Litterman expected returns are the Bayesian precision-weighted
average of that prior and those views, i.e. they satisfy
`((τΣ)⁻¹ + PᵀΩ⁻¹P) · rets = (τΣ)⁻¹ · pi + PᵀΩ⁻¹ · Q`. -/
theorem bl_posterior_precision_weighted {a : ℕ}
    (C : Matrix (Fin a) (Fin a) K) (views : List (Fin a × K)) (π : Fin a → K)
    (hA : ((blTau : K) • C).det ≠ 0) (hO : (blOmega C (blP views)).det ≠ 0)
    (hM : (blM C (blP views)).det ≠ 0) :
    (matInv ((blTau : K) • C) +
        (blP views).transpose * matInv (blOmega C (blP views)) * blP views).mulVec
        (bl_returns C views π) =
      (matInv ((blTau : K) • C)).mulVec π +
        ((blP views).transpose * matInv (blOmega C (blP views))).mulVec
          (blQ views) :=
  blCore_precision C (blP views) (blQ views) π hA hO hM

/-- C2 witness for the amended statement: a one-asset universe with
covariance `4`, prior `2` and a single absolute view of `3`. -/
theorem bl_posterior_precision_weighted_witness :
    ((blTau : ℚ) • (!![4] : Matrix (Fin 1) (Fin 1) ℚ)).det ≠ 0 ∧
      (blOmega (!![4] : Matrix (Fin 1) (Fin 1) ℚ)
          (blP [((0 : Fin 1), (3 : ℚ))])).det ≠ 0 ∧
      (blM (!![4] : Matrix (Fin 1) (Fin 1) ℚ)
          (blP [((0 : Fin 1), (3 : ℚ))])).det ≠ 0 ∧
      (matInv ((blTau : ℚ) • (!![4] : Matrix (Fin 1) (Fin 1) ℚ)) +
          (blP [((0 : Fin 1), (3 : ℚ))]).transpose *
            matInv (blOmega (!![4] : Matrix (Fin 1) (Fin 1) ℚ)
              (blP [((0 : Fin 1), (3 : ℚ))])) *
            blP [((0 : Fin 1), (3 : ℚ))]).mulVec
          (bl_returns (!![4] : Matrix (Fin 1) (Fin 1) ℚ)
            [((0 : Fin 1), (3 : ℚ))] (fun _ => 2)) =
        (matInv ((blTau : ℚ) • (!![4] : Matrix (Fin 1) (Fin 1) ℚ))).mulVec
            (fun _ => 2) +
          ((blP [((0 : Fin 1), (3 : ℚ))]).transpose *
            matInv (blOmega (!![4] : Matrix (Fin 1) (Fin 1) ℚ)
              (blP [((0 : Fin 1), (3 : ℚ))]))).mulVec
            (blQ [((0 : Fin 1), (3 : ℚ))]) := by
  have h1 : ((blTau : ℚ) • (!![4] : Matrix (Fin 1) (Fin 1) ℚ)).det ≠ 0 := by
    norm_num [Matrix.det_fin_one, Matrix.smul_apply, blTau]
  have h2 : (blOmega (!![4] : Matrix (Fin 1) (Fin 1) ℚ)
      (blP [((0 : Fin 1), (3 : ℚ))])).det ≠ 0 := by
    show ((blOmega (!![4] : Matrix (Fin 1) (Fin 1) ℚ)
      (blP [((0 : Fin 1), (3 : ℚ))]) : Matrix (Fin 1) (Fin 1) ℚ)).det ≠ 0
    rw [Matrix.det_fin_one]
    norm_num [blOmega, blP, blTau, Matrix.mul_apply, Matrix.diagonal,
      Matrix.smul_apply, Fin.sum_univ_one]
  have h3 : (blM (!![4] : Matrix (Fin 1) (Fin 1) ℚ)
      (blP [((0 : Fin 1), (3 : ℚ))])).det ≠ 0 := by
    show ((blM (!![4] : Matrix (Fin 1) (Fin 1) ℚ)
      (blP [((0 : Fin 1), (3 : ℚ))]) : Matrix (Fin 1) (Fin 1) ℚ)).det ≠ 0
    rw [Matrix.det_fin_one]
    norm_num [blM, blOmega, blP, blTau, Matrix.mul_apply, Matrix.diagonal,
      Matrix.smul_apply, Fin.sum_univ_one, Matrix.add_apply]
  exact ⟨h1, h2, h3,
    bl_posterior_precision_weighted (!![4] : Matrix (Fin 1) (Fin 1) ℚ)
      [((0 : Fin 1), (3 : ℚ))] (fun _ => 2) h1 h2 h3⟩

/-- On the concrete price history the script's annualized Ledoit-Wolf
covariance matrix is constant `3/25` (the two return series are perfectly
aligned, so the shrinkage intensity is `0`). -/
lemma cov_matrix_toy : ∀ i j, cov_matrixOf toyPrices i j = 3 / 25 := by
  intro i j
  fin_cases i <;> fin_cases j <;>
    norm_num [cov_matrixOf, ledoit_wolf, lwShrinkage, lwBeta2bar, lwDelta2,
      lwMu, empCov, centeredM, colMean, outerSelf, frobSq, pct_changeM,
      toyPrices, Fin.sum_univ_two, Matrix.smul_apply, Matrix.add_apply,
      Matrix.sub_apply, Matrix.one_apply, min_def]

/-- C2 counterexample: with no view selected (a valid checkbox
configuration), the displayed Black-Litterman expected returns equal the
prior passed as `pi`, which on the concrete price history has a negative
entry and therefore cannot be a market-implied prior `δ Σ w_mkt` for any
risk aversion `δ > 0` and market weights `w_mkt` — so the displayed
returns are not a Bayesian weighted average of market-implied prior
returns and the (empty set of) views. -/
theorem bl_prior_not_market_implied :
    ¬ ∃ (δ : ℝ) (w : Fin 2 → ℝ), 0 < δ ∧ (∀ j, 0 ≤ w j) ∧ w 0 + w 1 = 1 ∧
      bl_returns ((cov_matrixOf toyPrices).map fun q : ℚ => (q : ℝ)) []
          (expected_returnsOf toyPrices) =
        marketImpliedPrior ((cov_matrixOf toyPrices).map fun q : ℚ => (q : ℝ))
          δ w := by
  rintro ⟨δ, w, hδ, hw, hsum, heq⟩
  rw [bl_returns_nil] at heq
  have h1 := congrFun heq 1
  have hg : grossProd (pct_changeM toyPrices) 1 = 63 / 100 := by
    norm_num [grossProd, pct_changeM, toyPrices, Fin.prod_univ_two]
  have hL : expected_returnsOf toyPrices 1 =
      ((63 / 100 : ℚ) : ℝ) ^ (((12 : ℕ) : ℝ) / ((2 : ℕ) : ℝ)) - 1 := by
    simp only [expected_returnsOf, mean_historical_return, hg]
  have hexp : (((12 : ℕ) : ℝ) / ((2 : ℕ) : ℝ)) = ((6 : ℕ) : ℝ) := by norm_num
  have hL6 : expected_returnsOf toyPrices 1 = ((63 / 100 : ℚ) : ℝ) ^ (6 : ℕ) - 1 := by
    rw [hL, hexp, Real.rpow_natCast]
  have hLneg : expected_returnsOf toyPrices 1 < 0 := by
    rw [hL6]
    have hlt : ((63 / 100 : ℚ) : ℝ) ^ (6 : ℕ) < 1 := by
      apply pow_lt_one₀ (by norm_num) (by norm_num) (by norm_num)
    linarith
  have hmv : ((cov_matrixOf toyPrices).map fun q : ℚ => (q : ℝ)).mulVec w 1 =
      3 / 25 * w 0 + 3 / 25 * w 1 := by
    simp [Matrix.mulVec, Matrix.dotProduct, Fin.sum_univ_two,
      Matrix.map_apply, cov_matrix_toy]
  simp only [marketImpliedPrior] at h1
  rw [hmv] at h1
  have hsum' : 3 / 25 * w 0 + 3 / 25 * w 1 = 3 / 25 := by
    rw [← mul_add, hsum, mul_one]
  have hRpos : 0 < δ * (3 / 25 * w 0 + 3 / 25 * w 1) := by
    rw [hsum']
    exact mul_pos hδ (by norm_num)
  linarith

end AssetAllocation
